import Mathlib

/-!
Verification of the core of a streaming PGN extraction pipeline.

The development shallowly embeds the source program: strings are
modelled as lists of characters (`Str`), and byte strings (for the path
computation, where byte indices matter) as lists of naturals; the
streaming parser (src/parser.rs) is modelled as a three-state machine
driven over the list of lines delivered by the underlying buffered
reader, with the one-line pushback buffer kept explicit; the SQLite
index (src/database.rs) is modelled by finite maps, with each SQL
statement's effect written out as a map update; the buffered per-player
writer (src/writer.rs) and the per-archive orchestration
(src/pipeline.rs) are modelled as pure state transformers whose flushed
frames and emitted UI events are explicit in the result; the
pause/cancel primitive (src/events.rs) is modelled as a function of the
trace of flag values observed at its blocking points.
-/

/-- Lines, header values and player names are modelled as lists of
characters. -/
abbrev Str := List Char

/-- Whitespace predicate used by `str::trim` in the source language:
the Unicode White_Space property. -/
def rustIsWhitespace (c : Char) : Bool :=
  c = ' ' || c = '\t' || c = '\n' || c = '\u000b' || c = '\u000c' || c = '\r' ||
  c = '\u0085' || c = '\u00a0' || c = '\u1680' ||
  (0x2000 ≤ c.toNat && c.toNat ≤ 0x200a) ||
  c = '\u2028' || c = '\u2029' || c = '\u202f' || c = '\u205f' || c = '\u3000'

/-- Leading-whitespace removal (first half of `str::trim`). -/
def trimStart (l : Str) : Str := l.dropWhile rustIsWhitespace

/-- Trailing-whitespace removal (second half of `str::trim`). -/
def trimEnd (l : Str) : Str := (l.reverse.dropWhile rustIsWhitespace).reverse

/-- `str::trim`: remove leading and trailing whitespace. -/
def trim (l : Str) : Str := trimStart (trimEnd l)

/-- The predicate of `trim_end_matches(|c| c == '\r' || c == '\n')`. -/
def isCrOrLf (c : Char) : Bool := c = '\r' || c = '\n'

/-- Line-ending normalisation in `next_game`:
`line_buf.trim_end_matches(|c| c == '\r' || c == '\n')`. -/
def trimEndCrLf (l : Str) : Str := (l.reverse.dropWhile isCrOrLf).reverse

/-- Header-line test from both parser entry points: after trimming, the
line starts with a bracket, ends with a bracket, and contains a quote. -/
def is_header (t : Str) : Bool :=
  t.head? = some '[' && t.getLast? = some ']' && t.contains '"'

/-- The four tracked header fields. -/
structure Fields where
  event : Str
  white : Str
  black : Str
  time_control : Str
deriving DecidableEq

/-- `extract_header_into`: parse a trimmed header line of shape
`[Key "Value"]` and update the matching tracked field.  The source
slices by byte index; since the delimiters searched for (`[`, `]`, `"`,
space) are single-byte characters that cannot occur inside a multi-byte
UTF-8 character, the character-level slicing below coincides with it. -/
def extract_header_into (t : Str) (f : Fields) : Fields :=
  let inner := (t.drop 1).dropLast
  let key := inner.takeWhile (fun c => c ≠ ' ')
  if key.length = inner.length then f
  else
    let rest := trim (inner.drop (key.length + 1))
    if rest.length < 2 || rest.head? ≠ some '"' || rest.getLast? ≠ some '"' then f
    else
      let value := (rest.drop 1).dropLast
      if key = "Event".data then { f with event := value }
      else if key = "White".data then { f with white := value }
      else if key = "Black".data then { f with black := value }
      else if key = "TimeControl".data then { f with time_control := value }
      else f

/-- `count_clk`: number of (non-overlapping, leftmost) occurrences of
the clock marker substring in a line; each occurrence counts as one
half-move. -/
def count_clk : Str → Nat
  | '[' :: '%' :: 'c' :: 'l' :: 'k' :: rest => 1 + count_clk rest
  | _ :: rest => count_clk rest
  | [] => 0

/-- Pass-1 record: the four tracked header fields plus the half-move
count. -/
structure GameInfo where
  event : Str
  white : Str
  black : Str
  time_control : Str
  half_move_count : Nat
deriving DecidableEq

/-- Pass-2 record: a `GameInfo` plus the accumulated raw text. -/
structure Game where
  info : GameInfo
  raw_pgn : Str
deriving DecidableEq

/-- The parser's three states. -/
inductive PState where
  | between
  | inHeaders
  | inMoves
deriving DecidableEq

/-- In-progress accumulator of `next_info`: the local variables of its
loop. -/
structure InfoAcc where
  fields : Fields
  state : PState
  half_moves : Nat
deriving DecidableEq

/-- Start-of-call accumulator of `next_info`. -/
def init_info_acc : InfoAcc := ⟨⟨[], [], [], []⟩, .between, 0⟩

/-- The `GameInfo` built from an accumulator at emission time. -/
def info_of (a : InfoAcc) : GameInfo :=
  ⟨a.fields.event, a.fields.white, a.fields.black, a.fields.time_control, a.half_moves⟩

/-- Result of one `next_info` loop iteration: either return a record
(with the optional pushed-back line) or continue with an updated
accumulator. -/
inductive InfoStep where
  | emit (g : GameInfo) (pending : Option Str)
  | cont (a : InfoAcc)
deriving DecidableEq

/-- One iteration of the `next_info` loop on the line just read. -/
def next_info_step (a : InfoAcc) (lineRaw : Str) : InfoStep :=
  let trimmed := trim lineRaw
  if trimmed.isEmpty then
    match a.state with
    | .inMoves => .emit (info_of a) none
    | .inHeaders => .cont { a with state := .inMoves }
    | .between => .cont a
  else if is_header trimmed then
    match a.state with
    | .between => .cont { a with fields := extract_header_into trimmed a.fields, state := .inHeaders }
    | .inHeaders => .cont { a with fields := extract_header_into trimmed a.fields }
    | .inMoves => .emit (info_of a) (some lineRaw)
  else
    match a.state with
    | .between => .cont a
    | .inHeaders => .cont { a with state := .inMoves, half_moves := a.half_moves + count_clk trimmed }
    | .inMoves => .cont { a with half_moves := a.half_moves + count_clk trimmed }

/-- Parser state between calls: the one-line pushback buffer
(`pending_line`) and the not-yet-read lines of the underlying reader. -/
structure ParserSt where
  pending : Option Str
  rest : List Str
deriving DecidableEq

/-- The sequence of lines `read_line` will deliver: the pushed-back
line first (consumed and cleared on the first read), then the reader's
remaining lines. -/
def ParserSt.drained (ps : ParserSt) : List Str :=
  match ps.pending with
  | some p => p :: ps.rest
  | none => ps.rest

/-- The `next_info` loop, starting from accumulator `a`, over the lines
still to be read.  At end of input an in-progress record (state other
than BetweenGames) is emitted. -/
def next_info_aux (a : InfoAcc) : List Str → Option GameInfo × ParserSt
  | [] =>
    if a.state ≠ .between then (some (info_of a), ⟨none, []⟩) else (none, ⟨none, []⟩)
  | l :: ls =>
    match next_info_step a l with
    | .emit g p => (some g, ⟨p, ls⟩)
    | .cont a2 => next_info_aux a2 ls

/-- `PgnParser::next_info`: pass-1 entry point. -/
def next_info (ps : ParserSt) : Option GameInfo × ParserSt :=
  next_info_aux init_info_acc ps.drained

/-- In-progress accumulator of `next_game`: the `next_info` locals plus
the raw-text buffer. -/
structure GameAcc where
  fields : Fields
  state : PState
  half_moves : Nat
  raw : Str
deriving DecidableEq

/-- Start-of-call accumulator of `next_game`. -/
def init_game_acc : GameAcc := ⟨⟨[], [], [], []⟩, .between, 0, []⟩

/-- The `GameInfo` part built by `next_game` at emission time. -/
def info_of_g (a : GameAcc) : GameInfo :=
  ⟨a.fields.event, a.fields.white, a.fields.black, a.fields.time_control, a.half_moves⟩

/-- Result of one `next_game` loop iteration. -/
inductive GameStep where
  | emit (g : Game) (pending : Option Str)
  | cont (a : GameAcc)
deriving DecidableEq

/-- One iteration of the `next_game` loop on the line just read. -/
def next_game_step (a : GameAcc) (lineRaw : Str) : GameStep :=
  let line := trimEndCrLf lineRaw
  let trimmed := trim line
  if trimmed.isEmpty then
    match a.state with
    | .inMoves => .emit ⟨info_of_g a, a.raw ++ ['\n']⟩ none
    | .inHeaders => .cont { a with state := .inMoves, raw := a.raw ++ ['\n'] }
    | .between => .cont a
  else if is_header trimmed then
    match a.state with
    | .between => .cont { a with
        fields := extract_header_into trimmed a.fields
        state := .inHeaders
        raw := a.raw ++ line ++ ['\n'] }
    | .inHeaders => .cont { a with
        fields := extract_header_into trimmed a.fields
        raw := a.raw ++ line ++ ['\n'] }
    | .inMoves => .emit ⟨info_of_g a, a.raw⟩ (some lineRaw)
  else
    match a.state with
    | .between => .cont a
    | .inHeaders => .cont { a with
        state := .inMoves
        half_moves := a.half_moves + count_clk trimmed
        raw := a.raw ++ ['\n'] ++ line ++ ['\n'] }
    | .inMoves => .cont { a with
        half_moves := a.half_moves + count_clk trimmed
        raw := a.raw ++ line ++ ['\n'] }

/-- The `next_game` loop over the lines still to be read. -/
def next_game_aux (a : GameAcc) : List Str → Option Game × ParserSt
  | [] =>
    if a.state ≠ .between then (some ⟨info_of_g a, a.raw⟩, ⟨none, []⟩) else (none, ⟨none, []⟩)
  | l :: ls =>
    match next_game_step a l with
    | .emit g p => (some g, ⟨p, ls⟩)
    | .cont a2 => next_game_aux a2 ls

/-- `PgnParser::next_game`: pass-2 entry point. -/
def next_game (ps : ParserSt) : Option Game × ParserSt :=
  next_game_aux init_game_acc ps.drained

/-- Run the `next_info` loop body over a list of lines, requiring that
no iteration returns: the accumulator reached right before end of
input. -/
def run_cont (a : InfoAcc) : List Str → Option InfoAcc
  | [] => some a
  | l :: ls =>
    match next_info_step a l with
    | .cont a2 => run_cont a2 ls
    | .emit _ _ => none

/-- Run the `next_game` loop body over a list of lines without
returning. -/
def run_cont_g (a : GameAcc) : List Str → Option GameAcc
  | [] => some a
  | l :: ls =>
    match next_game_step a l with
    | .cont a2 => run_cont_g a2 ls
    | .emit _ _ => none

/-- Split a text into the lines a buffered reader would deliver
(terminators stripped; no trailing empty line after a final newline). -/
def linesOf : Str → List Str
  | [] => []
  | c :: rest =>
    if c = '\n' then [] :: linesOf rest
    else
      match linesOf rest with
      | [] => [[c]]
      | l :: ls => (c :: l) :: ls

/-- Join chunks, terminating each with a newline: the shape of the raw
buffer built by `next_game`. -/
def joinLN (chunks : List Str) : Str :=
  chunks.foldr (fun l acc => l ++ '\n' :: acc) []

/-! ### Round-trip: re-parsing the raw text accumulated by `next_game` -/

/-- The `next_info` accumulator carrying the same tracked data as a
`next_game` accumulator. -/
def acc_of_game (a : GameAcc) : InfoAcc := ⟨a.fields, a.state, a.half_moves⟩

/-- Invariant tying a `next_game` accumulator to the re-parse of its raw
buffer: the buffer is a newline-terminated join of newline-free chunks,
and running the `next_info` loop over exactly those chunks reaches the
corresponding accumulator without returning. -/
def GameRel (a : GameAcc) : Prop :=
  ∃ ch : List Str, (∀ l ∈ ch, ('\n' : Char) ∉ l) ∧ a.raw = joinLN ch ∧
    run_cont init_info_acc ch = some (acc_of_game a)

/-! ### Configuration and the record filter (src/pipeline.rs) -/

/-- The pipeline configuration fields the core consumes.  The source
uses u32/usize counters; the realistic magnitudes involved stay far
below any wrap-around, and the counters only ever grow by one per
record, so they are modelled as naturals. -/
structure Config where
  event_filter : Str
  time_control_filter : Option Str
  min_full_moves : Nat
  min_monthly_games : Nat
  min_total_games : Nat
  write_buffer_max_bytes : Nat

/-- `is_valid_game`: exact event match, optional exact time-control
match, and half-move count at least twice the minimum full-move
count. -/
def is_valid_game (info : GameInfo) (config : Config) : Bool :=
  if info.event ≠ config.event_filter then false
  else
    match config.time_control_filter with
    | some tc =>
      if info.time_control ≠ tc then false
      else decide (config.min_full_moves * 2 ≤ info.half_move_count)
    | none => decide (config.min_full_moves * 2 ≤ info.half_move_count)

/-! ### The durable index (src/database.rs) -/

/-- The persistent index: the three relations of the database file,
modelled as maps.  `players` maps a name to its cumulative
`total_games`; `monthly_counts` maps a (player, month) key to its
`games` value; `processed_datasets` is the set of processed urls. -/
structure DbState where
  players : Str → Option Nat
  monthly : Str × Str → Option Nat
  processed : Str → Bool

/-- A freshly initialised database: all three relations empty. -/
def dbEmpty : DbState := ⟨fun _ => none, fun _ => none, fun _ => false⟩

/-- `Database::is_dataset_processed`. -/
def is_dataset_processed (db : DbState) (url : Str) : Bool := db.processed url

/-- `Database::mark_dataset_processed`: INSERT OR IGNORE of the url. -/
def mark_dataset_processed (url : Str) (db : DbState) : DbState :=
  { db with processed := fun q => if q = url then true else db.processed q }

/-- Effect of one loop iteration of `Database::update_player_counts`:
INSERT OR REPLACE the (player, month) row of `monthly_counts` with the
given count, and upsert the player's `players` row, adding the count to
the existing total (the inserted count itself when the player is new:
`ON CONFLICT ... total_games = total_games + excluded.total_games`). -/
def apply_player_count (month : Str) (db : DbState) (pc : Str × Nat) : DbState :=
  { db with
    monthly := fun q => if q = (pc.1, month) then some pc.2 else db.monthly q
    players := fun q => if q = pc.1 then some ((db.players pc.1).getD 0 + pc.2)
      else db.players q }

/-- `Database::update_player_counts`: one transaction applying
`apply_player_count` for every (player, count) pair. -/
def update_player_counts (month : Str) (counts : List (Str × Nat)) (db : DbState) : DbState :=
  counts.foldl (apply_player_count month) db

/-! ### The buffered player writer (src/writer.rs) -/

/-- Byte length of a character under UTF-8 (`char::len_utf8`). -/
def char_utf8_size (c : Char) : Nat :=
  if c.toNat ≤ 0x7f then 1
  else if c.toNat ≤ 0x7ff then 2
  else if c.toNat ≤ 0xffff then 3
  else 4

/-- Byte length of a string under UTF-8 (`str::len`). -/
def utf8Len (s : Str) : Nat := (s.map char_utf8_size).sum

/-- In-memory state of `PlayerWriter`: the per-player buffers (an
association list with distinct keys standing for the hash map), the
running total byte size, and the configured maximum.  The filesystem
side is represented by the flushed frames the operations return. -/
structure PlayerWriter where
  buffer : List (Str × Str)
  buffer_size : Nat
  max_buffer_size : Nat
deriving DecidableEq

/-- `buffer.entry(player).or_default()` followed by extending the entry
with `data`: append to the player's entry, creating it when absent. -/
def bufInsert : List (Str × Str) → Str → Str → List (Str × Str)
  | [], p, data => [(p, data)]
  | (q, d) :: rest, p, data =>
    if q = p then (q, d ++ data) :: rest else (q, d) :: bufInsert rest p data

/-- The player's buffered content (empty when absent). -/
def bufLookup : List (Str × Str) → Str → Str
  | [], _ => []
  | (q, d) :: rest, p => if q = p then d else bufLookup rest p

/-- `PlayerWriter::flush_all`: drain every buffered entry, write each
non-empty one as one independently compressed frame appended to that
player's file (returned as the list of (player, frame content) writes;
the zstd encoding itself is an external library and is kept as the
identity on content), and reset the running size to zero. -/
def flush_all (w : PlayerWriter) : PlayerWriter × List (Str × Str) :=
  ({ w with buffer := [], buffer_size := 0 },
   w.buffer.filter (fun e => ¬e.2.isEmpty))

/-- `PlayerWriter::add_game`: append the game text plus one newline to
the player's buffer, grow the running size by the text's byte length
plus one, and, when the grown size meets or exceeds the configured
maximum, perform one `flush_all` before returning.  The second
component lists the flushes performed by this call. -/
def add_game (w : PlayerWriter) (player : Str) (pgn : Str) :
    PlayerWriter × List (List (Str × Str)) :=
  let buf := bufInsert w.buffer player (pgn ++ ['\n'])
  let size := w.buffer_size + utf8Len pgn + 1
  if w.max_buffer_size ≤ size then
    let wf := flush_all { w with buffer := buf, buffer_size := size }
    (wf.1, [wf.2])
  else
    ({ w with buffer := buf, buffer_size := size }, [])

/-! ### Player artifact path, byte level (src/writer.rs) -/

/-- Byte strings, for the path computation where byte indices matter. -/
abbrev ByteStr := List Nat

/-- `String::to_ascii_lowercase`: map every ASCII upper-case byte to
its lower-case counterpart, leaving all other bytes (including every
byte of a multi-byte UTF-8 character) unchanged. -/
def to_ascii_lowercase (bs : ByteStr) : ByteStr :=
  bs.map (fun b => if 65 ≤ b ∧ b ≤ 90 then b + 32 else b)

/-- `str::is_char_boundary`: true at index 0 and at the length; inside
the string, true iff the byte at the index is not a UTF-8 continuation
byte (`0x80..=0xbf`); false past the end. -/
def is_char_boundary (bs : ByteStr) (i : Nat) : Bool :=
  if i = 0 then true
  else
    match bs.get? i with
    | none => decide (i = bs.length)
    | some b => decide (¬(128 ≤ b ∧ b ≤ 191))

/-- UTF-8 bytes of the artifact extension ".pgn.zst". -/
def pgn_zst_ext : ByteStr := ".pgn.zst".data.map Char.toNat

/-- `PlayerWriter::player_path`, as the path components below the
players directory: shard directory (first two bytes of the ASCII
lowercased name when it has at least two bytes, the whole lowercased
name otherwise) then `<name>.pgn.zst`.  The slice `&lower[..2]` panics
when byte index 2 is not a character boundary of `lower`; the panic is
modelled as `none`.  `flush_all` (via `write_compressed`) and
`delete_player` both resolve paths through this function. -/
def player_path (name : ByteStr) : Option (List ByteStr) :=
  let lower := to_ascii_lowercase name
  if 2 ≤ lower.length then
    if is_char_boundary lower 2 then
      some [lower.take 2, name ++ pgn_zst_ext]
    else none
  else some [lower, name ++ pgn_zst_ext]

/-! ### Pause/cancel control (src/events.rs) -/

/-- A snapshot of the two atomic flags of `PipelineControl` as observed
by one load of each. -/
structure CtlFlags where
  paused : Bool
  cancelled : Bool
deriving DecidableEq

/-- Result of `PipelineControl::check`: a cancellation failure, success,
or still blocked inside the condition-variable wait (used when the
supplied trace of wake-up observations runs out while paused). -/
inductive CheckResult where
  | cancelledErr
  | ok
  | blocked
deriving DecidableEq

/-- The `while paused` loop of `check`, driven by the trace of flag
snapshots observed after each condition-variable wake-up (a spurious
wake-up is a snapshot whose pause flag is still set).  Each wake-up
re-checks the cancellation flag before the loop condition is evaluated
again. -/
def check_loop (now : CtlFlags) (wakes : List CtlFlags) : CheckResult :=
  if now.paused then
    match wakes with
    | [] => .blocked
    | w :: ws => if w.cancelled then .cancelledErr else check_loop w ws
  else .ok

/-- `PipelineControl::check`: fail if cancellation was already
requested, then run the pause-wait loop. -/
def check_run (now : CtlFlags) (wakes : List CtlFlags) : CheckResult :=
  if now.cancelled then .cancelledErr else check_loop now wakes

/-! ### The per-archive pipeline (src/pipeline.rs)

The orchestration is modelled per archive on the decompressed line
stream (download, decompression and the byte-progress wrapper are
external collaborators), with the emitted UI events explicit in the
result.  Throttled progress events and the periodic cooperative
cancellation checks are pure IO/throttling and are not part of the
state model (the model corresponds to an uncancelled run).
-/

/-- The number of lines the parser still has to read. -/
def ParserSt.size (ps : ParserSt) : Nat := ps.drained.length

/-- Iterate `next_info` for at most `fuel` records, collecting the
stream's records in order. -/
def parse_all_infos_fuel : Nat → ParserSt → List GameInfo
  | 0, _ => []
  | fuel + 1, ps =>
    match next_info ps with
    | (none, _) => []
    | (some g, ps2) => g :: parse_all_infos_fuel fuel ps2

/-- All records of the stream, in order, exactly as the pass-1 loop
`while let Some(info) = parser.next_info()` visits them.  By
`next_info_some_size` every produced record consumes at least one line,
so `ps.size` iterations always exhaust the stream and the fuel bound is
never the reason iteration stops. -/
def parse_all_infos (ps : ParserSt) : List GameInfo :=
  parse_all_infos_fuel ps.size ps

/-- Iterate `next_game` for at most `fuel` records. -/
def parse_all_games_fuel : Nat → ParserSt → List Game
  | 0, _ => []
  | fuel + 1, ps =>
    match next_game ps with
    | (none, _) => []
    | (some g, ps2) => g :: parse_all_games_fuel fuel ps2

/-- All full records of the stream, in order, exactly as the pass-2
loop `while let Some(game) = parser.next_game()` visits them; by
`next_game_some_size` the fuel bound `ps.size` is never the reason
iteration stops. -/
def parse_all_games (ps : ParserSt) : List Game :=
  parse_all_games_fuel ps.size ps

/-- `*counts.entry(name).or_insert(0) += 1`: bump the player's ledger
entry, creating it at 1 when absent. -/
def incr_count : List (Str × Nat) → Str → List (Str × Nat)
  | [], p => [(p, 1)]
  | (q, c) :: rest, p =>
    if q = p then (q, c + 1) :: rest else (q, c) :: incr_count rest p

/-- The pass-1 loop body for one record: skip records failing the
filter; otherwise bump White's entry (when the name is non-empty) and
then Black's entry (when non-empty). -/
def pass1_step (config : Config) (counts : List (Str × Nat)) (info : GameInfo) :
    List (Str × Nat) :=
  if is_valid_game info config = false then counts
  else
    let counts1 := if info.white.isEmpty then counts else incr_count counts info.white
    if info.black.isEmpty then counts1 else incr_count counts1 info.black

/-- `pass1_count`: the per-archive ledger mapping each player name to
the number of filter-passing records it participated in. -/
def pass1_count (config : Config) (lines : List Str) : List (Str × Nat) :=
  (parse_all_infos ⟨none, lines⟩).foldl (pass1_step config) []

/-- Sum of the ledger values (`player_counts.values().sum()`). -/
def sumValues (counts : List (Str × Nat)) : Nat := (counts.map Prod.snd).sum

/-- `player_counts.get(name)`. -/
def lookup_count : List (Str × Nat) → Str → Option Nat
  | [], _ => none
  | (q, c) :: rest, p => if q = p then some c else lookup_count rest p

/-- The qualifying set: players whose ledger value meets the monthly
threshold. -/
def qualifying_players (config : Config) (counts : List (Str × Nat)) : List Str :=
  (counts.filter (fun pc => config.min_monthly_games ≤ pc.2)).map Prod.fst

/-- `qualifying.iter().filter_map(|n| player_counts.get(n)).sum()`. -/
def qualifying_games_of (counts : List (Str × Nat)) (qual : List Str) : Nat :=
  (qual.filterMap (lookup_count counts)).sum

/-- `url.rsplit(sep).next().unwrap_or(url)`: the part after the last
separator (the whole string when the separator is absent). -/
def after_last (c : Char) (s : Str) : Str :=
  (s.reverse.takeWhile (fun x => x ≠ c)).reverse

/-- Bounded loop of `str::trim_end_matches` with a string pattern:
repeatedly remove the pattern while it is a suffix.  Every removal
strips at least one character, so `s.length` iterations suffice. -/
def trim_end_matches_go : Nat → Str → Str → Str
  | 0, s, _ => s
  | f + 1, s, pat =>
    if 0 < pat.length ∧ pat.length ≤ s.length ∧ s.drop (s.length - pat.length) = pat then
      trim_end_matches_go f (s.take (s.length - pat.length)) pat
    else s

/-- `str::trim_end_matches` with a string pattern. -/
def trim_end_matches_str (s pat : Str) : Str := trim_end_matches_go s.length s pat

/-- `extract_month`: filename after the last slash, without the
`.pgn.zst` extension, after the last underscore. -/
def extract_month (url : Str) : Str :=
  after_last '_' (trim_end_matches_str (after_last '/' url) ".pgn.zst".data)

/-- The UI events the modelled pipeline slice emits.  Download,
byte-progress, periodic-progress and prune events are throttled IO
reporting outside this model. -/
inductive UiEvent where
  | datasetStarted (name : Str)
  | datasetSkipped (name : Str)
  | datasetComplete
  | pass1Started
  | pass1Complete (total_scanned valid_games qualifying_players qualifying_games : Nat)
  | pass2Started
  | pass2Complete (total_extracted : Nat)
deriving DecidableEq

/-- On-disk player artifacts: for each player name, the list of
compressed frames appended to its file, in order. -/
def FileStore := Str → List Str

/-- No artifacts yet. -/
def fsEmpty : FileStore := fun _ => []

/-- Apply one flush batch: append each flushed frame to its player's
artifact, in batch order. -/
def apply_frame_batch (fs : FileStore) (batch : List (Str × Str)) : FileStore :=
  batch.foldl (fun fs e => fun q => if q = e.1 then fs e.1 ++ [e.2] else fs q) fs

/-- Apply the flushes an `add_game` call performed. -/
def apply_flushes (fs : FileStore) (fl : List (List (Str × Str))) : FileStore :=
  fl.foldl apply_frame_batch fs

/-- Pass-2 write for one participant of a record: when the player
qualifies, add the record's raw text under that player's name and count
one extracted entry. -/
def pass2_write (qual : List Str) (w : PlayerWriter) (fs : FileStore) (n : Nat)
    (player : Str) (raw : Str) : PlayerWriter × FileStore × Nat :=
  if qual.contains player then
    let r := add_game w player raw
    (r.1, apply_flushes fs r.2, n + 1)
  else (w, fs, n)

/-- `pass2_extract`: for every record passing the filter, write its raw
text once per qualifying participant (White first, then Black; a record
between two qualifying players is written twice). -/
def pass2_extract (config : Config) (qual : List Str) (games : List Game)
    (w : PlayerWriter) (fs : FileStore) : PlayerWriter × FileStore × Nat :=
  games.foldl
    (fun acc g =>
      if is_valid_game g.info config = false then acc
      else
        let acc1 := pass2_write qual acc.1 acc.2.1 acc.2.2 g.info.white g.raw_pgn
        pass2_write qual acc1.1 acc1.2.1 acc1.2.2 g.info.black g.raw_pgn)
    (w, fs, 0)

/-- One iteration of the archive loop of `run_with_sink`, on the
decompressed line stream `archives url`: skip check, pass 1, the
qualifying decision, pass 2 with a final unconditional flush, the index
commit, and the processed marker.  The third component lists the UI
events emitted, in order. -/
def run_dataset (config : Config) (archives : Str → List Str) (url : Str)
    (db : DbState) (fs : FileStore) : DbState × FileStore × List UiEvent :=
  let name := after_last '/' url
  if is_dataset_processed db url then
    (db, fs, [.datasetStarted name, .datasetSkipped name])
  else
    let month := extract_month url
    let lines := archives url
    let counts := pass1_count config lines
    let total_valid := sumValues counts
    let qual := qualifying_players config counts
    let qualifying_games := qualifying_games_of counts qual
    let ev1 : List UiEvent := [.datasetStarted name, .pass1Started,
      .pass1Complete (sumValues counts + total_valid) total_valid qual.length qualifying_games]
    if qual.isEmpty then
      (mark_dataset_processed url db, fs, ev1 ++ [.datasetComplete])
    else
      let w0 : PlayerWriter := ⟨[], 0, config.write_buffer_max_bytes⟩
      let r := pass2_extract config qual (parse_all_games ⟨none, lines⟩) w0 fs
      let rf := flush_all r.1
      let fs2 := apply_frame_batch r.2.1 rf.2
      let qcounts := counts.filter (fun pc => qual.contains pc.1)
      let db2 := mark_dataset_processed url (update_player_counts month qcounts db)
      (db2, fs2, ev1 ++ [.pass2Started, .pass2Complete r.2.2, .datasetComplete])

/-- The archive loop: process the urls in order, threading database and
artifacts, concatenating the emitted events. -/
def run_datasets (config : Config) (archives : Str → List Str) :
    List Str → DbState → FileStore → DbState × FileStore × List UiEvent
  | [], db, fs => (db, fs, [])
  | url :: rest, db, fs =>
    let r := run_dataset config archives url db fs
    let r2 := run_datasets config archives rest r.1 r.2.1
    (r2.1, r2.2.1, r.2.2 ++ r2.2.2)

/-- The formula C9 asserts for the reported figure, written from the
claim's words for comparison with the code's computation: the sum of
the ledger values of the players at or above the monthly threshold,
plus the number of records that passed the filters during pass 1. -/
def spec_total_scanned (config : Config) (lines : List Str) : Nat :=
  sumValues ((pass1_count config lines).filter
    (fun pc => config.min_monthly_games ≤ pc.2)) +
  ((parse_all_infos ⟨none, lines⟩).filter (fun i => is_valid_game i config)).length

/-! ### Theorems -/

/-! ### Basic lemmas about chunk joining and line splitting -/

theorem joinLN_append (xs ys : List Str) :
    joinLN (xs ++ ys) = joinLN xs ++ joinLN ys := by
  induction xs with
  | nil => simp [joinLN]
  | cons x xs ih => simp [joinLN, List.foldr_cons] at ih ⊢; simp [ih]

theorem joinLN_single (x : Str) : joinLN [x] = x ++ ['\n'] := by
  simp [joinLN]

theorem linesOf_append_nl (l : Str) (hl : ('\n' : Char) ∉ l) (t : Str) :
    linesOf (l ++ '\n' :: t) = l :: linesOf t := by
  induction l with
  | nil => simp [linesOf]
  | cons c l ih =>
    have hc : c ≠ '\n' := by
      intro h; exact hl (h ▸ List.mem_cons_self c l)
    have hl2 : ('\n' : Char) ∉ l := fun h => hl (List.mem_cons_of_mem c h)
    simp only [List.cons_append, linesOf, if_neg hc, List.append_eq, ih hl2]

theorem linesOf_joinLN (ch : List Str) (h : ∀ l ∈ ch, ('\n' : Char) ∉ l) :
    linesOf (joinLN ch) = ch := by
  induction ch with
  | nil => simp [joinLN, linesOf]
  | cons l ch ih =>
    have hjoin : joinLN (l :: ch) = l ++ '\n' :: joinLN ch := by simp [joinLN]
    rw [hjoin, linesOf_append_nl l (h l (List.mem_cons_self l ch)),
      ih (fun x hx => h x (List.mem_cons_of_mem l hx))]

/-! ### Composing loop runs -/

theorem run_cont_append (a : InfoAcc) (xs ys : List Str) :
    run_cont a (xs ++ ys) = (run_cont a xs).bind (fun b => run_cont b ys) := by
  induction xs generalizing a with
  | nil => simp [run_cont]
  | cons x xs ih =>
    simp only [List.cons_append, run_cont]
    cases next_info_step a x with
    | emit g p => rfl
    | cont a2 => exact ih a2

theorem next_info_aux_of_run_cont (a b : InfoAcc) (xs ys : List Str)
    (h : run_cont a xs = some b) :
    next_info_aux a (xs ++ ys) = next_info_aux b ys := by
  induction xs generalizing a with
  | nil => simp [run_cont] at h; rw [h]; rfl
  | cons x xs ih =>
    simp only [run_cont] at h
    simp only [List.cons_append, next_info_aux]
    cases hs : next_info_step a x with
    | emit g p => rw [hs] at h; exact absurd h (by simp)
    | cont a2 => rw [hs] at h; exact ih a2 h

theorem next_game_aux_of_run_cont_g (a b : GameAcc) (xs ys : List Str)
    (h : run_cont_g a xs = some b) :
    next_game_aux a (xs ++ ys) = next_game_aux b ys := by
  induction xs generalizing a with
  | nil => simp [run_cont_g] at h; rw [h]; rfl
  | cons x xs ih =>
    simp only [run_cont_g] at h
    simp only [List.cons_append, next_game_aux]
    cases hs : next_game_step a x with
    | emit g p => rw [hs] at h; exact absurd h (by simp)
    | cont a2 => rw [hs] at h; exact ih a2 h

theorem gameRel_init : GameRel init_game_acc :=
  ⟨[], by simp, rfl, rfl⟩

theorem gameRel_cont (a a2 : GameAcc) (l : Str)
    (hNL : ('\n' : Char) ∉ trimEndCrLf l)
    (hrel : GameRel a)
    (hstep : next_game_step a l = .cont a2) : GameRel a2 := by
  obtain ⟨ch, hnl, hraw, hrun⟩ := hrel
  rcases a with ⟨flds, st, hm, raw⟩
  simp only [GameAcc.mk.injEq] at hraw hrun ⊢
  cases hE : (trim (trimEndCrLf l)).isEmpty with
  | true =>
    cases st with
    | between =>
      simp only [next_game_step, hE, if_true, GameStep.cont.injEq] at hstep
      subst hstep
      exact ⟨ch, hnl, hraw, hrun⟩
    | inHeaders =>
      simp only [next_game_step, hE, if_true, GameStep.cont.injEq] at hstep
      subst hstep
      refine ⟨ch ++ [[]], ?_, ?_, ?_⟩
      · intro x hx
        rcases List.mem_append.1 hx with h | h
        · exact hnl x h
        · simp only [List.mem_singleton] at h
          subst h; simp
      · simp only [GameAcc.mk.injEq] at hraw ⊢
        rw [joinLN_append, ← hraw]; simp [joinLN]
      · rw [run_cont_append, hrun]; rfl
    | inMoves =>
      simp only [next_game_step, hE, if_true] at hstep
      exact GameStep.noConfusion hstep
  | false =>
    cases hH : is_header (trim (trimEndCrLf l)) with
    | true =>
      cases st with
      | between =>
        simp only [next_game_step, hE, hH, Bool.false_eq_true, if_false, if_true,
          GameStep.cont.injEq] at hstep
        subst hstep
        refine ⟨ch ++ [trimEndCrLf l], ?_, ?_, ?_⟩
        · intro x hx
          rcases List.mem_append.1 hx with h | h
          · exact hnl x h
          · simp only [List.mem_singleton] at h
            subst h; exact hNL
        · rw [joinLN_append, ← hraw]; simp [joinLN]
        · rw [run_cont_append, hrun]
          simp [run_cont, next_info_step, hE, hH, acc_of_game]
      | inHeaders =>
        simp only [next_game_step, hE, hH, Bool.false_eq_true, if_false, if_true,
          GameStep.cont.injEq] at hstep
        subst hstep
        refine ⟨ch ++ [trimEndCrLf l], ?_, ?_, ?_⟩
        · intro x hx
          rcases List.mem_append.1 hx with h | h
          · exact hnl x h
          · simp only [List.mem_singleton] at h
            subst h; exact hNL
        · rw [joinLN_append, ← hraw]; simp [joinLN]
        · rw [run_cont_append, hrun]
          simp [run_cont, next_info_step, hE, hH, acc_of_game]
      | inMoves =>
        simp only [next_game_step, hE, hH, Bool.false_eq_true, if_false, if_true] at hstep
        exact GameStep.noConfusion hstep
    | false =>
      cases st with
      | between =>
        simp only [next_game_step, hE, hH, Bool.false_eq_true, if_false,
          GameStep.cont.injEq] at hstep
        subst hstep
        exact ⟨ch, hnl, hraw, hrun⟩
      | inHeaders =>
        simp only [next_game_step, hE, hH, Bool.false_eq_true, if_false,
          GameStep.cont.injEq] at hstep
        subst hstep
        refine ⟨ch ++ [[], trimEndCrLf l], ?_, ?_, ?_⟩
        · intro x hx
          rcases List.mem_append.1 hx with h | h
          · exact hnl x h
          · rcases List.mem_cons.1 h with h1 | h2
            · subst h1; simp
            · simp only [List.mem_singleton] at h2
              subst h2; exact hNL
        · rw [joinLN_append, ← hraw]; simp [joinLN]
        · rw [run_cont_append, hrun]
          show run_cont ⟨flds, .inMoves, hm⟩ [trimEndCrLf l] = _
          simp [run_cont, next_info_step, hE, hH, acc_of_game]
      | inMoves =>
        simp only [next_game_step, hE, hH, Bool.false_eq_true, if_false,
          GameStep.cont.injEq] at hstep
        subst hstep
        refine ⟨ch ++ [trimEndCrLf l], ?_, ?_, ?_⟩
        · intro x hx
          rcases List.mem_append.1 hx with h | h
          · exact hnl x h
          · simp only [List.mem_singleton] at h
            subst h; exact hNL
        · rw [joinLN_append, ← hraw]; simp [joinLN]
        · rw [run_cont_append, hrun]
          simp [run_cont, next_info_step, hE, hH, acc_of_game]

theorem gameRel_emit (a : GameAcc) (l : Str) (g : Game) (p : Option Str)
    (hrel : GameRel a)
    (hstep : next_game_step a l = .emit g p) :
    (next_info ⟨none, linesOf g.raw_pgn⟩).1 = some g.info := by
  obtain ⟨ch, hnl, hraw, hrun⟩ := hrel
  rcases a with ⟨flds, st, hm, raw⟩
  simp only [GameAcc.mk.injEq] at hraw hrun ⊢
  cases hE : (trim (trimEndCrLf l)).isEmpty with
  | true =>
    cases st with
    | between => simp [next_game_step, hE] at hstep
    | inHeaders => simp [next_game_step, hE] at hstep
    | inMoves =>
      simp only [next_game_step, hE, if_true, GameStep.emit.injEq] at hstep
      obtain ⟨rfl, rfl⟩ := hstep
      have hjoin : raw ++ ['\n'] = joinLN (ch ++ [[]]) := by
        rw [hraw, joinLN_append]; rfl
      have hnl2 : ∀ x ∈ ch ++ [[]], ('\n' : Char) ∉ x := by
        intro x hx
        rcases List.mem_append.1 hx with h | h
        · exact hnl x h
        · simp only [List.mem_singleton] at h
          subst h; simp
      show (next_info ⟨none, linesOf (raw ++ ['\n'])⟩).1 = _
      rw [hjoin, linesOf_joinLN _ hnl2]
      show (next_info_aux init_info_acc (ch ++ [[]])).1 = _
      rw [next_info_aux_of_run_cont _ _ _ _ hrun]
      rfl
  | false =>
    cases hH : is_header (trim (trimEndCrLf l)) with
    | true =>
      cases st with
      | between => simp [next_game_step, hE, hH] at hstep
      | inHeaders => simp [next_game_step, hE, hH] at hstep
      | inMoves =>
        simp only [next_game_step, hE, hH, Bool.false_eq_true, if_false, if_true,
          GameStep.emit.injEq] at hstep
        obtain ⟨rfl, rfl⟩ := hstep
        show (next_info ⟨none, linesOf raw⟩).1 = _
        rw [hraw, linesOf_joinLN _ hnl]
        show (next_info_aux init_info_acc ch).1 = _
        rw [← List.append_nil ch, next_info_aux_of_run_cont _ _ _ _ hrun]
        rfl
    | false =>
      cases st with
      | between => simp [next_game_step, hE, hH] at hstep
      | inHeaders => simp [next_game_step, hE, hH] at hstep
      | inMoves => simp [next_game_step, hE, hH] at hstep

theorem gameRel_eof (a : GameAcc) (hrel : GameRel a) (hst : a.state ≠ .between) :
    (next_info ⟨none, linesOf a.raw⟩).1 = some (info_of_g a) := by
  obtain ⟨ch, hnl, hraw, hrun⟩ := hrel
  rw [hraw, linesOf_joinLN _ hnl]
  show (next_info_aux init_info_acc ch).1 = _
  rw [← List.append_nil ch, next_info_aux_of_run_cont _ _ _ _ hrun]
  simp [next_info_aux, acc_of_game, hst, info_of, info_of_g]

theorem next_game_roundtrip_aux (ls : List Str) :
    ∀ a : GameAcc, (∀ l ∈ ls, ('\n' : Char) ∉ trimEndCrLf l) → GameRel a →
    ∀ g ps2, next_game_aux a ls = (some g, ps2) →
    (next_info ⟨none, linesOf g.raw_pgn⟩).1 = some g.info := by
  induction ls with
  | nil =>
    intro a _ hrel g ps2 h
    by_cases hst : a.state = .between
    · simp [next_game_aux, hst] at h
    · rw [next_game_aux, if_pos hst] at h
      simp only [Prod.mk.injEq, Option.some.injEq] at h
      obtain ⟨rfl, rfl⟩ := h
      exact gameRel_eof a hrel hst
  | cons l ls ih =>
    intro a hnl hrel g ps2 h
    have hl : ('\n' : Char) ∉ trimEndCrLf l := hnl l (List.mem_cons_self l ls)
    have hls : ∀ x ∈ ls, ('\n' : Char) ∉ trimEndCrLf x :=
      fun x hx => hnl x (List.mem_cons_of_mem l hx)
    rw [next_game_aux] at h
    cases hs : next_game_step a l with
    | emit g2 p =>
      rw [hs] at h
      simp only [Prod.mk.injEq, Option.some.injEq] at h
      obtain ⟨rfl, rfl⟩ := h
      exact gameRel_emit a l g2 p hrel hs
    | cont a2 =>
      rw [hs] at h
      exact ih a2 hls (gameRel_cont a a2 l hl hrel hs) g ps2 h

/-- C1: for every record produced by the full-text entry point
`next_game` (from a stream whose lines carry a newline at most as part
of their trailing terminator, as lines delivered by a buffered reader
do), re-parsing the returned `raw_pgn` text yields the same Event,
White, Black and TimeControl header fields and the same half-move count
as the original parse. -/
theorem next_game_roundtrip (ps : ParserSt)
    (hNL : ∀ l ∈ ps.drained, ('\n' : Char) ∉ trimEndCrLf l)
    (g : Game) (ps2 : ParserSt)
    (h : next_game ps = (some g, ps2)) :
    (next_info ⟨none, linesOf g.raw_pgn⟩).1 = some g.info :=
  next_game_roundtrip_aux ps.drained init_game_acc hNL gameRel_init g ps2 h

/-- Witness: the round-trip theorem applied to a concrete record. -/
theorem next_game_roundtrip_witness :
    (next_info ⟨none,
      linesOf "[Event \"E\"]\n[White \"W\"]\n\n1. e4 [%clk 0:05:00]\n\n".data⟩).1 =
      some ⟨"E".data, "W".data, [], [], 1⟩ :=
  next_game_roundtrip
    ⟨none, ["[Event \"E\"]".data, "[White \"W\"]".data, [],
      "1. e4 [%clk 0:05:00]".data, [], "tail".data]⟩
    (by decide)
    ⟨⟨"E".data, "W".data, [], [], 1⟩,
      "[Event \"E\"]\n[White \"W\"]\n\n1. e4 [%clk 0:05:00]\n\n".data⟩
    ⟨none, ["tail".data]⟩
    (by decide)

/-- C2: if a header line is read while the `next_info` state machine is
in the InMoves state, the current record is ended carrying only the data
accumulated from the earlier lines, the just-read line is stored in the
one-line pushback buffer, and the next call processes exactly that line
first (so consecutive records with no blank separator parse as distinct
records with each line attributed to the correct record). -/
theorem next_info_pushback_on_header (a : InfoAcc) (pre rest2 : List Str) (hline : Str)
    (hrun : run_cont init_info_acc pre = some a)
    (hstate : a.state = .inMoves)
    (hne : (trim hline).isEmpty = false)
    (hhdr : is_header (trim hline) = true) :
    next_info ⟨none, pre ++ hline :: rest2⟩ = (some (info_of a), ⟨some hline, rest2⟩) ∧
    next_info ⟨some hline, rest2⟩ = next_info ⟨none, hline :: rest2⟩ := by
  constructor
  · show next_info_aux init_info_acc (pre ++ hline :: rest2) = _
    rw [next_info_aux_of_run_cont _ _ _ _ hrun, next_info_aux]
    simp [next_info_step, hne, hhdr, hstate]
  · rfl

/-- Witness: two records concatenated with no blank line in between;
the first parses from its own lines only and the header line of the
second is pushed back. -/
theorem next_info_pushback_on_header_witness :
    next_info ⟨none, ["[Event \"E\"]".data, [], "1. e4".data,
        "[Event \"F\"]".data, "x".data]⟩ =
      (some ⟨"E".data, [], [], [], 0⟩, ⟨some "[Event \"F\"]".data, ["x".data]⟩) ∧
    next_info ⟨some "[Event \"F\"]".data, ["x".data]⟩ =
      next_info ⟨none, "[Event \"F\"]".data :: ["x".data]⟩ :=
  next_info_pushback_on_header ⟨⟨"E".data, [], [], []⟩, .inMoves, 0⟩
    ["[Event \"E\"]".data, [], "1. e4".data] ["x".data] "[Event \"F\"]".data
    (by decide) (by decide) (by decide) (by decide)

/-- C8: if end of input is reached while the parser is inside a record
(state InHeaders or InMoves, i.e. after at least one record line), both
entry points still emit the in-progress record with the header fields
and half-move count accumulated so far (and, for `next_game`, the whole
raw text accumulated so far — no trailing data is lost). -/
theorem parser_eof_emit :
    (∀ (ps : ParserSt) (a : InfoAcc),
      run_cont init_info_acc ps.drained = some a → a.state ≠ .between →
      next_info ps = (some (info_of a), ⟨none, []⟩)) ∧
    (∀ (ps : ParserSt) (a : GameAcc),
      run_cont_g init_game_acc ps.drained = some a → a.state ≠ .between →
      next_game ps = (some ⟨info_of_g a, a.raw⟩, ⟨none, []⟩)) := by
  constructor
  · intro ps a hrun hst
    show next_info_aux init_info_acc ps.drained = _
    rw [← List.append_nil ps.drained, next_info_aux_of_run_cont _ _ _ _ hrun]
    simp [next_info_aux, hst]
  · intro ps a hrun hst
    show next_game_aux init_game_acc ps.drained = _
    rw [← List.append_nil ps.drained, next_game_aux_of_run_cont_g _ _ _ _ hrun]
    simp [next_game_aux, hst]

/-- Witness: a stream that ends while still reading headers is emitted
with the two headers parsed so far. -/
theorem parser_eof_emit_witness :
    next_info ⟨none, ["[Event \"E\"]".data, "[White \"W\"]".data]⟩ =
      (some ⟨"E".data, "W".data, [], [], 0⟩, ⟨none, []⟩) :=
  parser_eof_emit.1 ⟨none, ["[Event \"E\"]".data, "[White \"W\"]".data]⟩
    ⟨⟨"E".data, "W".data, [], []⟩, .inHeaders, 0⟩ (by decide) (by decide)

/-- C3: with the event filter matching and the time-control filter
matching (or absent), a record passes the filter iff its half-move
count is at least twice the configured minimum full-move count; in
particular with minimum 30, a half-move count of 59 is rejected and 60
is accepted. -/
theorem is_valid_game_length_filter :
    (∀ (config : Config) (info : GameInfo),
      info.event = config.event_filter →
      (∀ tc, config.time_control_filter = some tc → info.time_control = tc) →
      (is_valid_game info config = true ↔ config.min_full_moves * 2 ≤ info.half_move_count)) ∧
    (∀ (config : Config) (info : GameInfo),
      config.min_full_moves = 30 →
      info.event = config.event_filter →
      (∀ tc, config.time_control_filter = some tc → info.time_control = tc) →
      (info.half_move_count = 59 → is_valid_game info config = false) ∧
      (info.half_move_count = 60 → is_valid_game info config = true)) := by
  have main : ∀ (config : Config) (info : GameInfo),
      info.event = config.event_filter →
      (∀ tc, config.time_control_filter = some tc → info.time_control = tc) →
      (is_valid_game info config = true ↔ config.min_full_moves * 2 ≤ info.half_move_count) := by
    intro config info hev htc
    unfold is_valid_game
    rw [if_neg (by simp [hev])]
    cases hf : config.time_control_filter with
    | none => simp
    | some tc =>
      have h := htc tc hf
      simp [h]
  refine ⟨main, ?_⟩
  intro config info hmin hev htc
  constructor
  · intro h59
    cases hval : is_valid_game info config with
    | false => rfl
    | true =>
      have h := (main config info hev htc).1 hval
      rw [hmin, h59] at h
      omega
  · intro h60
    exact (main config info hev htc).2 (by rw [hmin, h60])

/-- Witness: with minimum-full-moves 30, 59 clock markers are rejected
and 60 accepted. -/
theorem is_valid_game_length_filter_witness :
    is_valid_game ⟨"E".data, "W".data, "B".data, "300+0".data, 59⟩
      ⟨"E".data, none, 30, 25, 100, 0⟩ = false ∧
    is_valid_game ⟨"E".data, "W".data, "B".data, "300+0".data, 60⟩
      ⟨"E".data, none, 30, 25, 100, 0⟩ = true :=
  ⟨(is_valid_game_length_filter.2 ⟨"E".data, none, 30, 25, 100, 0⟩
      ⟨"E".data, "W".data, "B".data, "300+0".data, 59⟩ rfl rfl
      (fun _ h => Option.noConfusion h)).1 rfl,
   (is_valid_game_length_filter.2 ⟨"E".data, none, 30, 25, 100, 0⟩
      ⟨"E".data, "W".data, "B".data, "300+0".data, 60⟩ rfl rfl
      (fun _ h => Option.noConfusion h)).2 rfl⟩

theorem update_player_counts_monthly_not_mem (month : Str) :
    ∀ (counts : List (Str × Nat)) (db : DbState) (p m2 : Str),
      p ∉ counts.map Prod.fst →
      (update_player_counts month counts db).monthly (p, m2) = db.monthly (p, m2) := by
  intro counts
  induction counts with
  | nil => intro db p m2 _; rfl
  | cons qc rest ih =>
    intro db p m2 hp
    rw [List.map_cons, List.mem_cons] at hp
    push_neg at hp
    have hstep : update_player_counts month (qc :: rest) db =
        update_player_counts month rest (apply_player_count month db qc) := rfl
    rw [hstep, ih _ p m2 hp.2]
    simp [apply_player_count, hp.1]

theorem update_player_counts_monthly_mem (month : Str) :
    ∀ (counts : List (Str × Nat)) (db : DbState) (p : Str) (c : Nat),
      (counts.map Prod.fst).Nodup → (p, c) ∈ counts →
      (update_player_counts month counts db).monthly (p, month) = some c := by
  intro counts
  induction counts with
  | nil => intro db p c _ hmem; exact absurd hmem (List.not_mem_nil _)
  | cons qc rest ih =>
    intro db p c hnd hmem
    rw [List.map_cons, List.nodup_cons] at hnd
    have hstep : update_player_counts month (qc :: rest) db =
        update_player_counts month rest (apply_player_count month db qc) := rfl
    rcases List.mem_cons.1 hmem with h | h
    · subst h
      rw [hstep, update_player_counts_monthly_not_mem month rest _ p month
        (by simpa using hnd.1)]
      simp [apply_player_count]
    · rw [hstep]
      exact ih _ p c hnd.2 h

/-- C4: `update_player_counts` replaces each (player, month) row of
`monthly_counts` regardless of its prior value (so re-running the same
month overwrites that row rather than double-counting it) while adding
each player's count to the `players` total; consequently two archives
for the same (previously absent) player in two different months,
contributing c1 and c2 qualifying games, leave `total_games = c1 + c2`
and two distinct monthly rows holding c1 and c2. -/
theorem update_player_counts_spec :
    (∀ (month : Str) (counts : List (Str × Nat)) (db : DbState) (p : Str) (c : Nat),
      (counts.map Prod.fst).Nodup → (p, c) ∈ counts →
      (update_player_counts month counts db).monthly (p, month) = some c) ∧
    (∀ (db : DbState) (p m1 m2 : Str) (c1 c2 : Nat),
      m1 ≠ m2 → db.players p = none →
      (update_player_counts m2 [(p, c2)] (update_player_counts m1 [(p, c1)] db)).players p
          = some (c1 + c2) ∧
      (update_player_counts m2 [(p, c2)] (update_player_counts m1 [(p, c1)] db)).monthly (p, m1)
          = some c1 ∧
      (update_player_counts m2 [(p, c2)] (update_player_counts m1 [(p, c1)] db)).monthly (p, m2)
          = some c2) := by
  refine ⟨fun month counts db p c hnd hmem =>
    update_player_counts_monthly_mem month counts db p c hnd hmem, ?_⟩
  intro db p m1 m2 c1 c2 hm hp
  refine ⟨?_, ?_, ?_⟩
  · simp [update_player_counts, apply_player_count, hp]
  · simp [update_player_counts, apply_player_count, hm]
  · simp [update_player_counts, apply_player_count]

/-- Witness: replacement of a monthly row, and accumulation over two
months for one player. -/
theorem update_player_counts_spec_witness :
    (update_player_counts "2025-01".data [("A".data, 3)] dbEmpty).monthly
        ("A".data, "2025-01".data) = some 3 ∧
    (update_player_counts "2025-02".data [("A".data, 4)]
        (update_player_counts "2025-01".data [("A".data, 3)] dbEmpty)).players "A".data
        = some 7 ∧
    (update_player_counts "2025-02".data [("A".data, 4)]
        (update_player_counts "2025-01".data [("A".data, 3)] dbEmpty)).monthly
        ("A".data, "2025-01".data) = some 3 ∧
    (update_player_counts "2025-02".data [("A".data, 4)]
        (update_player_counts "2025-01".data [("A".data, 3)] dbEmpty)).monthly
        ("A".data, "2025-02".data) = some 4 :=
  ⟨update_player_counts_spec.1 "2025-01".data [("A".data, 3)] dbEmpty "A".data 3
      (by decide) (by decide),
   update_player_counts_spec.2 dbEmpty "A".data "2025-01".data "2025-02".data 3 4
      (by decide) rfl⟩

theorem bufLookup_bufInsert (buf : List (Str × Str)) (p : Str) (data : Str) :
    bufLookup (bufInsert buf p data) p = bufLookup buf p ++ data := by
  induction buf with
  | nil => simp [bufInsert, bufLookup]
  | cons e rest ih =>
    rcases e with ⟨q, d⟩
    by_cases h : q = p
    · simp [bufInsert, bufLookup, h]
    · simp [bufInsert, bufLookup, h, ih]

/-- Counterexample to C5 as stated: an `add_game` call that triggers
the flush leaves the running size at zero — not at zero plus the size
of the triggering record, because the triggering record was added to
the buffer before the check and is therefore part of the flush. -/
theorem add_game_size_after_flush_cex :
    (add_game ⟨[], 0, 1⟩ "a".data "x".data).2.length = 1 ∧
    (add_game ⟨[], 0, 1⟩ "a".data "x".data).1.buffer_size = 0 ∧
    (add_game ⟨[], 0, 1⟩ "a".data "x".data).1.buffer_size ≠ 0 + (utf8Len "x".data + 1) := by
  decide

/-- C5 (amended): `add_game` appends the text plus one newline to the
player's buffer and grows the running size by the text's byte length
plus one; whenever the grown size meets or exceeds the configured
maximum, exactly one full flush (which includes the triggering record,
since it is added before the check) happens before the call returns,
after which the buffer is empty and the running size is zero; otherwise
no flush happens and the grown buffer and size are kept. -/
theorem add_game_flush_spec (w : PlayerWriter) (player pgn : Str) :
    bufLookup (bufInsert w.buffer player (pgn ++ ['\n'])) player
        = bufLookup w.buffer player ++ pgn ++ ['\n'] ∧
    (w.max_buffer_size ≤ w.buffer_size + utf8Len pgn + 1 →
      add_game w player pgn =
        (⟨[], 0, w.max_buffer_size⟩,
         [(bufInsert w.buffer player (pgn ++ ['\n'])).filter (fun e => ¬e.2.isEmpty)])) ∧
    (w.buffer_size + utf8Len pgn + 1 < w.max_buffer_size →
      add_game w player pgn =
        (⟨bufInsert w.buffer player (pgn ++ ['\n']), w.buffer_size + utf8Len pgn + 1,
          w.max_buffer_size⟩, [])) := by
  refine ⟨?_, ?_, ?_⟩
  · rw [bufLookup_bufInsert, List.append_assoc]
  · intro h
    simp [add_game, flush_all, h]
  · intro h
    rw [add_game, if_neg (by omega)]

/-- Witness: a non-triggering add keeps the grown buffer; a triggering
add flushes everything and resets the size to zero. -/
theorem add_game_flush_spec_witness :
    add_game ⟨[], 0, 4⟩ "a".data "x".data =
      (⟨[("a".data, "x\n".data)], 2, 4⟩, []) ∧
    add_game ⟨[("a".data, "x\n".data)], 2, 4⟩ "a".data "y".data =
      (⟨[], 0, 4⟩, [[("a".data, "x\ny\n".data)]]) :=
  ⟨(add_game_flush_spec ⟨[], 0, 4⟩ "a".data "x".data).2.2 (by decide),
   (add_game_flush_spec ⟨[("a".data, "x\n".data)], 2, 4⟩ "a".data "y".data).2.1 (by decide)⟩

/-- C10: `player_path` panics (modelled as `none`) exactly on the names
whose ASCII-lowercased form is at least 2 bytes long with byte index 2
not a UTF-8 character boundary (for example a name beginning with a
3-byte character); on every name where index 2 is a boundary it is
total and returns `<first two lowercased bytes>/<name>.pgn.zst` (the
whole lowercased name as shard for names shorter than 2 bytes); and for
every ASCII name of length at least 2 index 2 is a boundary, so ASCII
names never panic. -/
theorem player_path_boundary_spec :
    (∀ name : ByteStr, player_path name = none ↔
      2 ≤ name.length ∧ is_char_boundary (to_ascii_lowercase name) 2 = false) ∧
    (∀ name : ByteStr, 2 ≤ name.length →
      is_char_boundary (to_ascii_lowercase name) 2 = true →
      player_path name = some [(to_ascii_lowercase name).take 2, name ++ pgn_zst_ext]) ∧
    (∀ name : ByteStr, name.length < 2 →
      player_path name = some [to_ascii_lowercase name, name ++ pgn_zst_ext]) ∧
    (∀ name : ByteStr, 2 ≤ name.length → (∀ b ∈ name, b < 128) →
      is_char_boundary (to_ascii_lowercase name) 2 = true) := by
  have hlen : ∀ name : ByteStr, (to_ascii_lowercase name).length = name.length := by
    intro name; simp [to_ascii_lowercase]
  refine ⟨?_, ?_, ?_, ?_⟩
  · intro name
    simp only [player_path]
    by_cases h2 : 2 ≤ (to_ascii_lowercase name).length
    · rw [if_pos h2]
      by_cases hb : is_char_boundary (to_ascii_lowercase name) 2 = true
      · simp [hb]
      · rw [Bool.not_eq_true] at hb
        rw [hlen name] at h2
        simp [hb, h2]
    · rw [if_neg h2]
      rw [hlen name] at h2
      simp [h2]
  · intro name h2 hb
    have h2l : 2 ≤ (to_ascii_lowercase name).length := by rw [hlen]; exact h2
    simp only [player_path]
    rw [if_pos h2l, if_pos hb]
  · intro name h2
    have h2l : ¬ 2 ≤ (to_ascii_lowercase name).length := by rw [hlen]; omega
    simp only [player_path]
    rw [if_neg h2l]
  · intro name h2 hascii
    rw [is_char_boundary, if_neg (by omega)]
    cases hg : (to_ascii_lowercase name).get? 2 with
    | none =>
      have hle : (to_ascii_lowercase name).length ≤ 2 := by
        by_contra hgt
        rw [List.get?_eq_get (by omega)] at hg
        exact Option.noConfusion hg
      rw [hlen] at hle
      simp [hlen, show (2 : Nat) = name.length by omega]
    | some b =>
      have hmem : b ∈ to_ascii_lowercase name := List.get?_mem hg
      have hb : b < 128 := by
        rcases List.mem_map.1 hmem with ⟨a, ha, hab⟩
        have := hascii a ha
        by_cases hup : 65 ≤ a ∧ a ≤ 90
        · rw [if_pos hup] at hab; omega
        · rw [if_neg hup] at hab; omega
      simp
      omega

/-- Witness: a name starting with a 3-byte UTF-8 character (the euro
sign, bytes 226 130 172) panics; the ASCII name "Ab" (bytes 65 98)
yields shard "ab" and file "Ab.pgn.zst". -/
theorem player_path_boundary_spec_witness :
    player_path [226, 130, 172, 97] = none ∧
    player_path [65, 98] = some [[97, 98], [65, 98] ++ pgn_zst_ext] :=
  ⟨(player_path_boundary_spec.1 [226, 130, 172, 97]).2 (by decide),
   player_path_boundary_spec.2.1 [65, 98] (by decide) (by decide)⟩

theorem check_loop_ok (wakes : List CtlFlags) :
    ∀ now, check_loop now wakes = .ok →
      now.paused = false ∨ ∃ w ∈ wakes, w.paused = false ∧ w.cancelled = false := by
  induction wakes with
  | nil =>
    intro now h
    by_cases hp : now.paused
    · simp [check_loop, hp] at h
    · left; simpa using hp
  | cons w ws ih =>
    intro now h
    by_cases hp : now.paused
    · simp only [check_loop, hp, if_true] at h
      by_cases hw : w.cancelled
      · simp [hw] at h
      · rw [if_neg (by simpa using hw)] at h
        rcases ih w h with h1 | ⟨x, hx, hx2⟩
        · right
          exact ⟨w, List.mem_cons_self w ws, h1, by simpa using hw⟩
        · right
          exact ⟨x, List.mem_cons_of_mem w hx, hx2⟩
    · left; simpa using hp

theorem check_loop_blocked (wakes : List CtlFlags) :
    ∀ now, now.paused = true →
      (∀ w ∈ wakes, w.paused = true ∧ w.cancelled = false) →
      check_loop now wakes = .blocked := by
  induction wakes with
  | nil => intro now hp _; simp [check_loop, hp]
  | cons w ws ih =>
    intro now hp hall
    have hw := hall w (List.mem_cons_self w ws)
    rw [check_loop, if_pos hp]
    rw [if_neg (by simp [hw.2])]
    exact ih w hw.1 (fun x hx => hall x (List.mem_cons_of_mem w hx))

/-- C7: `check` returns a cancellation failure once cancellation has
been requested — both when observed on entry and when observed by the
re-check that follows a wake-up from the pause wait; while the pause
flag stays set and no cancellation is observed, the call stays blocked
in the wait; and it returns success only when cancellation was never
observed and some observation (on entry or at a wake-up) shows the
pause flag clear. -/
theorem pipeline_check_spec :
    (∀ now wakes, now.cancelled = true → check_run now wakes = .cancelledErr) ∧
    (∀ now w ws, now.cancelled = false → now.paused = true → w.cancelled = true →
      check_run now (w :: ws) = .cancelledErr) ∧
    (∀ now wakes, now.cancelled = false → now.paused = true →
      (∀ w ∈ wakes, w.paused = true ∧ w.cancelled = false) →
      check_run now wakes = .blocked) ∧
    (∀ now wakes, check_run now wakes = .ok →
      now.cancelled = false ∧
      (now.paused = false ∨ ∃ w ∈ wakes, w.paused = false ∧ w.cancelled = false)) := by
  refine ⟨?_, ?_, ?_, ?_⟩
  · intro now wakes h
    simp [check_run, h]
  · intro now w ws hc hp hw
    simp [check_run, check_loop, hc, hp, hw]
  · intro now wakes hc hp hall
    rw [check_run, if_neg (by simp [hc])]
    exact check_loop_blocked wakes now hp hall
  · intro now wakes h
    by_cases hc : now.cancelled
    · simp [check_run, hc] at h
    · rw [check_run, if_neg hc] at h
      exact ⟨by simpa using hc, check_loop_ok wakes now h⟩

/-- Witness: cancellation observed on entry fails; cancellation
observed at a wake-up fails; pausing with no resume stays blocked. -/
theorem pipeline_check_spec_witness :
    check_run ⟨false, true⟩ [] = .cancelledErr ∧
    check_run ⟨true, false⟩ (⟨true, true⟩ :: []) = .cancelledErr ∧
    check_run ⟨true, false⟩ [⟨true, false⟩] = .blocked :=
  ⟨pipeline_check_spec.1 ⟨false, true⟩ [] rfl,
   pipeline_check_spec.2.1 ⟨true, false⟩ ⟨true, true⟩ [] rfl rfl rfl,
   pipeline_check_spec.2.2.1 ⟨true, false⟩ [⟨true, false⟩] rfl rfl (by decide)⟩

theorem next_info_step_between (a : InfoAcc) (l : Str) (h : a.state = .between) :
    ∃ a2, next_info_step a l = .cont a2 := by
  by_cases hE : (trim l).isEmpty
  · exact ⟨a, by simp [next_info_step, hE, h]⟩
  · by_cases hH : is_header (trim l)
    · exact ⟨{ a with fields := extract_header_into (trim l) a.fields, state := .inHeaders },
        by simp [next_info_step, hE, hH, h]⟩
    · exact ⟨a, by simp [next_info_step, hE, hH, h]⟩

theorem next_game_step_between (a : GameAcc) (l : Str) (h : a.state = .between) :
    ∃ a2, next_game_step a l = .cont a2 := by
  by_cases hE : (trim (trimEndCrLf l)).isEmpty
  · exact ⟨a, by simp [next_game_step, hE, h]⟩
  · by_cases hH : is_header (trim (trimEndCrLf l))
    · exact ⟨{ a with
          fields := extract_header_into (trim (trimEndCrLf l)) a.fields
          state := .inHeaders
          raw := a.raw ++ trimEndCrLf l ++ ['\n'] },
        by simp [next_game_step, hE, hH, h]⟩
    · exact ⟨a, by simp [next_game_step, hE, hH, h]⟩

theorem next_info_aux_size (ls : List Str) :
    ∀ a, ((next_info_aux a ls).2).size ≤ ls.length := by
  induction ls with
  | nil =>
    intro a
    by_cases h : a.state = .between <;>
      simp [next_info_aux, h, ParserSt.size, ParserSt.drained]
  | cons l ls ih =>
    intro a
    rw [next_info_aux]
    cases hs : next_info_step a l with
    | emit g p =>
      cases p <;> simp [ParserSt.size, ParserSt.drained]
    | cont a2 =>
      simpa using Nat.le_succ_of_le (ih a2)

theorem next_game_aux_size (ls : List Str) :
    ∀ a, ((next_game_aux a ls).2).size ≤ ls.length := by
  induction ls with
  | nil =>
    intro a
    by_cases h : a.state = .between <;>
      simp [next_game_aux, h, ParserSt.size, ParserSt.drained]
  | cons l ls ih =>
    intro a
    rw [next_game_aux]
    cases hs : next_game_step a l with
    | emit g p =>
      cases p <;> simp [ParserSt.size, ParserSt.drained]
    | cont a2 =>
      simpa using Nat.le_succ_of_le (ih a2)

/-- A call of `next_info` that produces a record consumes at least one
line of the stream. -/
theorem next_info_some_size (ps : ParserSt) (g : GameInfo) (ps2 : ParserSt)
    (h : next_info ps = (some g, ps2)) : ps2.size < ps.size := by
  rw [next_info] at h
  cases hd : ps.drained with
  | nil =>
    rw [hd] at h
    simp [next_info_aux, init_info_acc] at h
  | cons l ls =>
    rw [hd] at h
    obtain ⟨a2, ha2⟩ := next_info_step_between init_info_acc l rfl
    rw [next_info_aux] at h
    simp only [ha2] at h
    have hle := next_info_aux_size ls a2
    rw [h] at hle
    simp at hle
    have : ps.size = ls.length + 1 := by rw [ParserSt.size, hd]; rfl
    omega

/-- A call of `next_game` that produces a record consumes at least one
line of the stream. -/
theorem next_game_some_size (ps : ParserSt) (g : Game) (ps2 : ParserSt)
    (h : next_game ps = (some g, ps2)) : ps2.size < ps.size := by
  rw [next_game] at h
  cases hd : ps.drained with
  | nil =>
    rw [hd] at h
    simp [next_game_aux, init_game_acc] at h
  | cons l ls =>
    rw [hd] at h
    obtain ⟨a2, ha2⟩ := next_game_step_between init_game_acc l rfl
    rw [next_game_aux] at h
    simp only [ha2] at h
    have hle := next_game_aux_size ls a2
    rw [h] at hle
    simp at hle
    have : ps.size = ls.length + 1 := by rw [ParserSt.size, hd]; rfl
    omega

/-- C6: when the archive identifier is already in `processed_datasets`,
the orchestrator emits the skip notification and performs no counting,
no writing of player artifacts and no index mutation — database and
artifact store are returned unchanged — and the archive loop continues
with the next archive from exactly that unchanged state. -/
theorem run_dataset_skip_noop (config : Config) (archives : Str → List Str) (url : Str)
    (db : DbState) (fs : FileStore) (rest : List Str)
    (h : is_dataset_processed db url = true) :
    run_dataset config archives url db fs =
      (db, fs, [.datasetStarted (after_last '/' url), .datasetSkipped (after_last '/' url)]) ∧
    run_datasets config archives (url :: rest) db fs =
      ((run_datasets config archives rest db fs).1,
       (run_datasets config archives rest db fs).2.1,
       .datasetStarted (after_last '/' url) :: .datasetSkipped (after_last '/' url) ::
         (run_datasets config archives rest db fs).2.2) := by
  have h1 : run_dataset config archives url db fs =
      (db, fs, [.datasetStarted (after_last '/' url), .datasetSkipped (after_last '/' url)]) := by
    rw [run_dataset, if_pos h]
  refine ⟨h1, ?_⟩
  rw [run_datasets, h1]
  simp

/-- Witness: processing a url twice; the second loop iteration leaves
the state unchanged and only emits the skip events before the rest of
the loop runs. -/
theorem run_dataset_skip_noop_witness :
    run_dataset ⟨"E".data, none, 30, 25, 100, 0⟩ (fun _ => [])
        "u".data (mark_dataset_processed "u".data dbEmpty) fsEmpty =
      (mark_dataset_processed "u".data dbEmpty, fsEmpty,
       [.datasetStarted "u".data, .datasetSkipped "u".data]) ∧
    run_datasets ⟨"E".data, none, 30, 25, 100, 0⟩ (fun _ => [])
        ["u".data] (mark_dataset_processed "u".data dbEmpty) fsEmpty =
      ((run_datasets ⟨"E".data, none, 30, 25, 100, 0⟩ (fun _ => [])
          [] (mark_dataset_processed "u".data dbEmpty) fsEmpty).1,
       (run_datasets ⟨"E".data, none, 30, 25, 100, 0⟩ (fun _ => [])
          [] (mark_dataset_processed "u".data dbEmpty) fsEmpty).2.1,
       .datasetStarted "u".data :: .datasetSkipped "u".data ::
         (run_datasets ⟨"E".data, none, 30, 25, 100, 0⟩ (fun _ => [])
           [] (mark_dataset_processed "u".data dbEmpty) fsEmpty).2.2) :=
  run_dataset_skip_noop ⟨"E".data, none, 30, 25, 100, 0⟩ (fun _ => []) "u".data
    (mark_dataset_processed "u".data dbEmpty) fsEmpty [] (by decide)

/-- Counterexample to C9 as stated: an archive with one filter-passing
record between two distinct sub-threshold players reports
total_scanned = 4 (the ledger sum 2 plus the valid_games figure 2,
which is that same ledger sum), while the claimed formula — qualifying
ledger sum plus number of filter-passing records — gives 0 + 1 = 1. -/
theorem pass1_total_scanned_cex :
    (run_dataset ⟨"E".data, none, 0, 2, 100, 0⟩
        (fun _ => ["[Event \"E\"]".data, "[White \"X\"]".data, "[Black \"Y\"]".data,
          [], "1. e4".data])
        "u".data dbEmpty fsEmpty).2.2 =
      [.datasetStarted "u".data, .pass1Started, .pass1Complete 4 2 0 0, .datasetComplete] ∧
    spec_total_scanned ⟨"E".data, none, 0, 2, 100, 0⟩
        ["[Event \"E\"]".data, "[White \"X\"]".data, "[Black \"Y\"]".data, [], "1. e4".data]
      = 1 := by
  constructor
  · decide
  · decide

/-- C9 (amended): the total_scanned figure of the pass-1 completion
event equals the sum of all ledger values plus the reported valid_games
figure, where valid_games is itself that same sum of all ledger values
(each filter-passing record counted once per non-empty participant) —
twice the full ledger sum, not the qualifying-ledger sum plus the
number of filter-passing records. -/
theorem pass1_total_scanned_formula (config : Config) (archives : Str → List Str)
    (url : Str) (db : DbState) (fs : FileStore)
    (h : is_dataset_processed db url = false) :
    ∃ tail, (run_dataset config archives url db fs).2.2 =
      .datasetStarted (after_last '/' url) :: .pass1Started ::
      .pass1Complete
        (sumValues (pass1_count config (archives url)) +
          sumValues (pass1_count config (archives url)))
        (sumValues (pass1_count config (archives url)))
        (qualifying_players config (pass1_count config (archives url))).length
        (qualifying_games_of (pass1_count config (archives url))
          (qualifying_players config (pass1_count config (archives url)))) :: tail := by
  rw [run_dataset, if_neg (by simp [h])]
  by_cases hq : (qualifying_players config (pass1_count config (archives url))).isEmpty
  · refine ⟨[.datasetComplete], ?_⟩
    simp only [hq, if_true]
    rfl
  · refine ⟨[.pass2Started,
      .pass2Complete (pass2_extract config
        (qualifying_players config (pass1_count config (archives url)))
        (parse_all_games ⟨none, archives url⟩)
        ⟨[], 0, config.write_buffer_max_bytes⟩ fs).2.2, .datasetComplete], ?_⟩
    simp only [Bool.not_eq_true] at hq
    simp only [hq, Bool.false_eq_true, if_false]
    rfl

/-- Witness: the amended formula at the counterexample archive. -/
theorem pass1_total_scanned_formula_witness :
    ∃ tail, (run_dataset ⟨"E".data, none, 0, 2, 100, 0⟩
        (fun _ => ["[Event \"E\"]".data, "[White \"X\"]".data, "[Black \"Y\"]".data,
          [], "1. e4".data])
        "u".data dbEmpty fsEmpty).2.2 =
      .datasetStarted (after_last '/' "u".data) :: .pass1Started ::
      .pass1Complete
        (sumValues (pass1_count ⟨"E".data, none, 0, 2, 100, 0⟩
            ((fun _ => ["[Event \"E\"]".data, "[White \"X\"]".data, "[Black \"Y\"]".data,
              [], "1. e4".data]) "u".data)) +
          sumValues (pass1_count ⟨"E".data, none, 0, 2, 100, 0⟩
            ((fun _ => ["[Event \"E\"]".data, "[White \"X\"]".data, "[Black \"Y\"]".data,
              [], "1. e4".data]) "u".data)))
        (sumValues (pass1_count ⟨"E".data, none, 0, 2, 100, 0⟩
            ((fun _ => ["[Event \"E\"]".data, "[White \"X\"]".data, "[Black \"Y\"]".data,
              [], "1. e4".data]) "u".data)))
        (qualifying_players ⟨"E".data, none, 0, 2, 100, 0⟩
          (pass1_count ⟨"E".data, none, 0, 2, 100, 0⟩
            ((fun _ => ["[Event \"E\"]".data, "[White \"X\"]".data, "[Black \"Y\"]".data,
              [], "1. e4".data]) "u".data))).length
        (qualifying_games_of (pass1_count ⟨"E".data, none, 0, 2, 100, 0⟩
            ((fun _ => ["[Event \"E\"]".data, "[White \"X\"]".data, "[Black \"Y\"]".data,
              [], "1. e4".data]) "u".data))
          (qualifying_players ⟨"E".data, none, 0, 2, 100, 0⟩
            (pass1_count ⟨"E".data, none, 0, 2, 100, 0⟩
              ((fun _ => ["[Event \"E\"]".data, "[White \"X\"]".data, "[Black \"Y\"]".data,
                [], "1. e4".data]) "u".data)))) :: tail :=
  pass1_total_scanned_formula ⟨"E".data, none, 0, 2, 100, 0⟩
    (fun _ => ["[Event \"E\"]".data, "[White \"X\"]".data, "[Black \"Y\"]".data,
      [], "1. e4".data])
    "u".data dbEmpty fsEmpty (by decide)
